import Mathlib

/-!
Shallow embedding of the nix-mcp server's bounded log subsystem
(`src/index.ts`): the log store (`logStore`, `storeLog`), the output
formatter (`formatResult`), the retrieval operations (`get_log`,
`list_logs`) and the process-result normalization of `execNix`.

JavaScript strings are modelled as `List Char`; the process-wide mutable
state (`logCounter`, `logStore`) is threaded explicitly through a
`ServerState`. The regular-expression engine used by the `grep` filter and
the wall clock are external collaborators: they enter as parameters
(`m : Matcher`, `now : JSStr`).
-/

set_option maxRecDepth 100000

abbrev JSStr := List Char

def nl : Char := '\n'

/-- Embed a Lean string literal as a modelled JavaScript string. -/
def str (s : String) : JSStr := s.data

/-- JS `s.split("\n")`. -/
def jsSplit (s : JSStr) : List JSStr := s.splitOnP (fun c => c == nl)

/-- JS `lines.join("\n")`. -/
def jsJoin (ls : List JSStr) : JSStr := List.intercalate [nl] ls

/-- JS `s.includes(sub)` (substring test). -/
def includesSub (s sub : JSStr) : Bool :=
  match s with
  | [] => sub.isPrefixOf []
  | _ :: rest => sub.isPrefixOf s || includesSub rest sub

/-- The JS `\s` / `trim` whitespace class, restricted to ASCII. -/
def jsSpace (c : Char) : Bool :=
  c == ' ' || c == '\t' || c == '\n' || c == '\r' || c == '\x0b' || c == '\x0c'

/-- JS `s.trim()`. -/
def jsTrim (s : JSStr) : JSStr :=
  ((s.dropWhile jsSpace).reverse.dropWhile jsSpace).reverse

/-- Decimal rendering of a natural number, fuelled so that it is
structurally recursive (models JS number-to-string conversion). -/
def natReprAux : Nat → Nat → List Char
  | 0, _ => []
  | fuel + 1, n =>
    if n < 10 then [Nat.digitChar n]
    else natReprAux fuel (n / 10) ++ [Nat.digitChar (n % 10)]

def natRepr (n : Nat) : JSStr := natReprAux (n + 1) n

/-- JS template rendering of a (possibly negative) integer. -/
def intRepr (i : Int) : JSStr :=
  if i < 0 then '-' :: natRepr i.natAbs else natRepr i.toNat

/-- Strict lexicographic comparison of two modelled strings
(models the order `localeCompare` induces on ASCII ISO timestamps). -/
def lexLtB : JSStr → JSStr → Bool
  | [], [] => false
  | [], _ :: _ => true
  | _ :: _, [] => false
  | a :: as, b :: bs => if a < b then true else if a = b then lexLtB as bs else false

/-- `{stdout, stderr, exitCode}` as produced by `execNix`. -/
structure ExecResult where
  stdout : JSStr
  stderr : JSStr
  exitCode : Int
deriving DecidableEq

/-- One archived execution (interface `LogEntry` in the source). -/
structure LogEntry where
  id : JSStr
  command : JSStr
  timestamp : JSStr
  stdout : JSStr
  stderr : JSStr
  exitCode : Int
deriving DecidableEq

/-- The module-level mutable state: `logCounter` and the insertion-ordered
`logStore : Map<string, LogEntry>` (modelled as an association list in
insertion order, which is how a JS `Map` iterates). -/
structure ServerState where
  logCounter : Nat
  logStore : List (JSStr × LogEntry)
deriving DecidableEq

def initState : ServerState := ⟨0, []⟩

def MAX_LOGS : Nat := 100
def MAX_OUTPUT_LINES : Nat := 50
def MAX_OUTPUT_CHARS : Nat := 4000

/-- JS `Map.get`: first (and, with unique keys, only) binding of the key. -/
def mapGet (m : List (JSStr × LogEntry)) (k : JSStr) : Option LogEntry :=
  match m.find? (fun p => p.1 == k) with
  | some p => some p.2
  | none => none

/-- JS `Map.set`: update in place when the key is present, else append. -/
def mapSet (m : List (JSStr × LogEntry)) (k : JSStr) (v : LogEntry) :
    List (JSStr × LogEntry) :=
  if m.any (fun p => p.1 == k) then
    m.map (fun p => if p.1 == k then (k, v) else p)
  else m ++ [(k, v)]

/-- JS `Map.delete`. -/
def mapDelete (m : List (JSStr × LogEntry)) (k : JSStr) :
    List (JSStr × LogEntry) :=
  m.filter (fun p => p.1 != k)

/-- The id string `log-${n}`. -/
def logIdOf (n : Nat) : JSStr := str "log-" ++ natRepr n

/-- `storeLog(command, result)`: allocate the next id, evict the oldest
entry when at capacity, insert, return the id. `now` is the
`new Date().toISOString()` value. -/
def storeLog (command : JSStr) (result : ExecResult) (now : JSStr)
    (st : ServerState) : JSStr × ServerState :=
  let counter := st.logCounter + 1
  let id := logIdOf counter
  let store1 :=
    if st.logStore.length ≥ MAX_LOGS then
      match st.logStore.head? with
      | some oldest => mapDelete st.logStore oldest.1
      | none => st.logStore
    else st.logStore
  (id, ⟨counter,
        mapSet store1 id ⟨id, command, now, result.stdout, result.stderr, result.exitCode⟩⟩)

/-- One `storeLog` call: command, result, timestamp. -/
abbrev LogOp := JSStr × ExecResult × JSStr

def applyLogs (ops : List LogOp) (st : ServerState) : ServerState :=
  ops.foldl (fun s op => (storeLog op.1 op.2.1 op.2.2 s).2) st

/-- The ids handed out by a sequence of `storeLog` calls, in call order. -/
def issuedIds (ops : List LogOp) (st : ServerState) : List JSStr :=
  match ops with
  | [] => []
  | op :: rest =>
    let r := storeLog op.1 op.2.1 op.2.2 st
    r.1 :: issuedIds rest r.2

/-- One noise-filter decision for a stderr line in `formatResult`:
`true` means the line is kept. -/
def keepLine (line : JSStr) : Bool :=
  if includesSub line (str "Warning") && includesSub line (str "experimental") then false
  else if includesSub line (str "\x1b[") || includesSub line (str "\r") then false
  else if (str "copying path").isPrefixOf line then false
  else if matchesSizeLine line then false
  else true
where
  /-- `line.match(/^\s*\d+(\.\d+)?\s*(KiB|MiB|GiB)/)` -/
  matchesSizeLine (line : JSStr) : Bool :=
    let s1 := line.dropWhile jsSpace
    let digits := s1.takeWhile Char.isDigit
    let s2 := s1.dropWhile Char.isDigit
    if digits.isEmpty then false
    else
      let s3 :=
        match s2 with
        | '.' :: rest =>
          if (rest.takeWhile Char.isDigit).isEmpty then s2
          else rest.dropWhile Char.isDigit
        | _ => s2
      let s4 := s3.dropWhile jsSpace
      (str "KiB").isPrefixOf s4 || (str "MiB").isPrefixOf s4 || (str "GiB").isPrefixOf s4

/-- The archiving trigger of `formatResult` (computed on the unfiltered
`stdout + stderr`). -/
def needsArchive (result : ExecResult) : Bool :=
  let fullOutput := result.stdout ++ result.stderr
  decide (fullOutput.length > MAX_OUTPUT_CHARS) ||
    decide ((jsSplit fullOutput).length > MAX_OUTPUT_LINES)

/-- Line-count truncation in `formatResult`: past `MAX_OUTPUT_LINES`, keep
the first and last `⌊MAX_OUTPUT_LINES/2⌋` lines around a marker line. -/
def truncateByLines (lines : List JSStr) : List JSStr :=
  if lines.length > MAX_OUTPUT_LINES then
    let keepL := MAX_OUTPUT_LINES / 2
    let removed := lines.length - MAX_OUTPUT_LINES
    lines.take keepL
      ++ [str "... (" ++ natRepr removed ++ str " lines omitted) ..."]
      ++ lines.drop (lines.length - keepL)
  else lines

/-- Character-count truncation in `formatResult`. -/
def truncateByChars (output : JSStr) : JSStr :=
  if output.length > MAX_OUTPUT_CHARS then
    let keepC := MAX_OUTPUT_CHARS / 2
    let removed := output.length - MAX_OUTPUT_CHARS
    output.take keepC
      ++ str "\n... (" ++ natRepr removed ++ str " characters omitted) ...\n"
      ++ output.drop (output.length - keepC)
  else output

/-- Result of `formatResult`: the display string, the id of the archived
copy (when archiving fired), and the updated store state. -/
structure FormatOut where
  display : JSStr
  logId : Option JSStr
  state : ServerState
deriving DecidableEq

/-- `formatResult(command, result)`: archive when the unfiltered output is
too large, then build the filtered/truncated display plus footer. -/
def formatResult (command : JSStr) (result : ExecResult) (now : JSStr)
    (st : ServerState) : FormatOut :=
  let idSt :=
    if needsArchive result then
      let r := storeLog command result now st
      (some r.1, r.2)
    else (none, st)
  let output0 := if result.stdout == [] then [] else result.stdout
  let output1 :=
    if result.stderr == [] then output0
    else
      let filteredStderr := jsTrim (jsJoin ((jsSplit result.stderr).filter keepLine))
      if filteredStderr == [] then output0
      else output0 ++ (if output0 == [] then [] else [nl]) ++ filteredStderr
  let output2 := truncateByChars (jsJoin (truncateByLines (jsSplit output1)))
  let statusParts : List JSStr :=
    (if result.exitCode != 0 then [str "Exit code: " ++ intRepr result.exitCode] else [])
      ++ (match idSt.1 with
          | some i => [str "Full log: use nix_get_log with id=\x22" ++ i ++ str "\x22"]
          | none => [])
  let output3 :=
    if statusParts.length > 0 then
      output2 ++ str "\n\n[" ++ List.intercalate (str " | ") statusParts ++ str "]"
    else output2
  ⟨if output3 == [] then str "Command completed successfully" else output3,
   idSt.1, idSt.2⟩

/-- The regular-expression engine behind `new RegExp(grep, "i").test(line)`
is an external collaborator: a matcher takes the pattern and the line. -/
abbrev Matcher := JSStr → JSStr → Bool

/-- The header-plus-body layout returned by `get_log` for a found entry. -/
def getLogHeader (entry : LogEntry) (body : JSStr) : JSStr :=
  jsJoin [str "Command: nix " ++ entry.command,
          str "Exit code: " ++ intRepr entry.exitCode,
          str "Timestamp: " ++ entry.timestamp,
          [],
          body]

/-- The `get_log` tool handler: lookup, optional grep filter, optional
head/tail windows (JS truthiness on all three arguments), fixed header. -/
def getLog (m : Matcher) (st : ServerState) (logId : JSStr)
    (grep : Option JSStr) (head tail : Option Nat) : JSStr :=
  match mapGet st.logStore logId with
  | none => str "Log not found: " ++ logId ++ str "\nUse nix_list_logs to see available logs."
  | some entry =>
    let output := entry.stdout ++ [nl] ++ entry.stderr
    let output :=
      match grep with
      | some g => if g == [] then output
                  else jsJoin ((jsSplit output).filter (fun line => m g line))
      | none => output
    let lines := jsSplit output
    let lines :=
      match head with
      | some h => if h == 0 then lines else lines.take h
      | none => lines
    let lines :=
      match tail with
      | some t => if t == 0 then lines else lines.drop (lines.length - t)
      | none => lines
    getLogHeader entry (jsJoin lines)

/-- A tool handler either returns text or throws (`Error:` path of the
`CallToolRequestSchema` handler). -/
inductive ToolOutcome where
  | ok (text : JSStr)
  | thrown (message : JSStr)
deriving DecidableEq

/-- The `get_log` branch of `handleTool` always returns (never throws). -/
def getLogOutcome (m : Matcher) (st : ServerState) (logId : JSStr)
    (grep : Option JSStr) (head tail : Option Nat) : ToolOutcome :=
  .ok (getLog m st logId grep head tail)

/-- The dispatch wrapper: a returned string becomes a non-error text
response; a thrown error becomes an `isError` response. -/
def callToolResponse : ToolOutcome → JSStr × Bool
  | .ok s => (s, false)
  | .thrown e => (str "Error: " ++ e, true)

/-- The sort comparator of `list_logs`:
`(a, b) => b.timestamp.localeCompare(a.timestamp)` sorts so that `a` may
precede `b` exactly when `a.timestamp` is not smaller than `b.timestamp`. -/
def listLogsLe (a b : LogEntry) : Bool := !(lexLtB a.timestamp b.timestamp)

/-- The entries `list_logs` renders: values sorted by timestamp
descending, first 20. -/
def listLogsEntries (st : ServerState) : List LogEntry :=
  ((st.logStore.map Prod.snd).mergeSort listLogsLe).take 20

/-- One rendered line of `list_logs`. -/
def listLogLine (log : LogEntry) : JSStr :=
  str "[" ++ log.id ++ str "] " ++ log.timestamp ++ str " - nix "
    ++ log.command.take 50
    ++ (if log.command.length > 50 then str "..." else [])
    ++ str " (exit: " ++ intRepr log.exitCode ++ str ")"

/-- The `list_logs` tool handler. -/
def listLogs (st : ServerState) : JSStr :=
  let logs := listLogsEntries st
  if logs.length == 0 then str "No logs available."
  else jsJoin (logs.map listLogLine)

/-- How the spawned process terminates, as seen by `execNix`'s promise:
either the `error` event fires (spawn failure) or `close` fires with the
accumulated streams and a possibly-null exit status. -/
inductive SpawnOutcome where
  | spawnError (message : JSStr)
  | closed (stdout stderr : JSStr) (code : Option Int)
deriving DecidableEq

/-- The value `execNix` resolves with in each case: spawn failure is
folded into the result shape with exit code 1, and a null exit status is
normalized to 1 (`code ?? 1`). -/
def execNixResult : SpawnOutcome → ExecResult
  | .spawnError message => ⟨[], message, 1⟩
  | .closed stdout stderr code => ⟨stdout, stderr, code.getD 1⟩

/-- Concrete numbered lines (`L1`, `L2`, …) used by concrete instances. -/
def sampleLines (n : Nat) : List JSStr :=
  (List.range n).map (fun i => 'L' :: natRepr (i + 1))

def dummyOp : LogOp := (str "build", ⟨[], [], (0 : Int)⟩, str "2024-01-01T00:00:00.000Z")

/-- Numeric value of a decimal digit character (proof tool). -/
def digitVal (c : Char) : Nat := c.toNat - 48

/-- Parse a decimal digit string back to a number (proof tool). -/
def parseNat (s : List Char) : Nat := s.foldl (fun acc c => acc * 10 + digitVal c) 0

/-- Invariant of the reachable store states: bounded size, keys issued by
the counter, no duplicate keys. -/
def goodState (st : ServerState) : Prop :=
  st.logStore.length ≤ MAX_LOGS ∧
  (∀ p ∈ st.logStore, ∃ i, i ≤ st.logCounter ∧ p.1 = logIdOf i) ∧
  (st.logStore.map Prod.fst).Nodup

theorem parseNat_go (s : List Char) (a : Nat) :
    s.foldl (fun acc c => acc * 10 + digitVal c) a
      = a * 10 ^ s.length + parseNat s := by
  induction s generalizing a with
  | nil => simp [parseNat]
  | cons c cs ih =>
    simp only [List.foldl_cons, parseNat] at *
    rw [ih, ih (0 * 10 + digitVal c)]
    simp only [List.length_cons, pow_succ]
    ring

theorem parseNat_append_digit (s : List Char) (c : Char) :
    parseNat (s ++ [c]) = parseNat s * 10 + digitVal c := by
  simp [parseNat, List.foldl_append]

theorem digitVal_digitChar : ∀ d, d < 10 → digitVal (Nat.digitChar d) = d := by
  decide

theorem parseNat_natReprAux : ∀ fuel n, n < fuel → parseNat (natReprAux fuel n) = n := by
  intro fuel
  induction fuel with
  | zero => intro n h; omega
  | succ fuel ih =>
    intro n h
    by_cases h10 : n < 10
    · simp [natReprAux, h10, parseNat, digitVal_digitChar n h10]
    · have hdiv : n / 10 < fuel := by
        have h1 : n / 10 < n := Nat.div_lt_self (by omega) (by omega)
        omega
      simp only [natReprAux, if_neg h10]
      rw [parseNat_append_digit, ih _ hdiv,
          digitVal_digitChar _ (Nat.mod_lt _ (by omega))]
      omega

theorem parseNat_natRepr (n : Nat) : parseNat (natRepr n) = n :=
  parseNat_natReprAux (n + 1) n (Nat.lt_succ_self n)

theorem natRepr_injective : Function.Injective natRepr := by
  intro a b h
  have := parseNat_natRepr a
  rw [h, parseNat_natRepr] at this
  omega

theorem logIdOf_injective : Function.Injective logIdOf := by
  intro a b h
  exact natRepr_injective (List.append_cancel_left h)

theorem jsSplit_ne_nil (s : JSStr) : jsSplit s ≠ [] :=
  List.splitOnP_ne_nil _ s

theorem jsJoin_nil : jsJoin [] = [] := rfl

theorem jsJoin_single (a : JSStr) : jsJoin [a] = a := by
  simp [jsJoin, List.intercalate]

theorem jsJoin_cons_cons (a b : JSStr) (tl : List JSStr) :
    jsJoin (a :: b :: tl) = a ++ nl :: jsJoin (b :: tl) := by
  simp [jsJoin, List.intercalate, List.intersperse_cons_cons]

theorem jsJoin_cons_head (c : Char) (h : JSStr) (tl : List JSStr) :
    jsJoin ((c :: h) :: tl) = c :: jsJoin (h :: tl) := by
  cases tl with
  | nil => simp [jsJoin_single]
  | cons b bs => simp [jsJoin_cons_cons]

theorem jsJoin_jsSplit (s : JSStr) : jsJoin (jsSplit s) = s := by
  induction s with
  | nil => simp [jsSplit, List.splitOnP_nil, jsJoin_single]
  | cons c cs ih =>
    obtain ⟨d, ds, hds⟩ := List.exists_cons_of_ne_nil (jsSplit_ne_nil cs)
    by_cases h : c = nl
    · have : jsSplit (c :: cs) = [] :: jsSplit cs := by
        simp [jsSplit, List.splitOnP_cons, h]
      rw [this, hds, jsJoin_cons_cons, ← hds, ih, h]
      rfl
    · have : jsSplit (c :: cs) = (c :: d) :: ds := by
        simp only [jsSplit] at hds ⊢
        rw [List.splitOnP_cons, if_neg (by simp [h]), hds]
        rfl
      rw [this, jsJoin_cons_head, ← hds, ih]

theorem mapGet_eq_none_of_not_mem (m : List (JSStr × LogEntry)) (k : JSStr)
    (h : k ∉ m.map Prod.fst) : mapGet m k = none := by
  have hf : m.find? (fun p => p.1 == k) = none := by
    rw [List.find?_eq_none]
    intro x hx hbeq
    exact h (List.mem_map.mpr ⟨x, hx, by simpa using hbeq⟩)
  simp [mapGet, hf]

theorem mapGet_append_self (m : List (JSStr × LogEntry)) (k : JSStr) (v : LogEntry)
    (h : k ∉ m.map Prod.fst) : mapGet (m ++ [(k, v)]) k = some v := by
  induction m with
  | nil => simp [mapGet, List.find?]
  | cons p rest ih =>
    simp only [List.map_cons, List.mem_cons, not_or] at h
    have hp : (p.1 == k) = false := by simpa using fun he => h.1 he.symm
    simp only [List.cons_append, mapGet, List.find?, hp]
    exact ih h.2

theorem mapGet_map_update (m : List (JSStr × LogEntry)) (k : JSStr) (v : LogEntry)
    (h : m.any (fun p => p.1 == k) = true) :
    mapGet (m.map (fun p => if p.1 == k then (k, v) else p)) k = some v := by
  induction m with
  | nil => simp at h
  | cons p rest ih =>
    by_cases hp : p.1 = k
    · have hmap : (p :: rest).map (fun p => if p.1 == k then (k, v) else p)
          = (k, v) :: rest.map (fun p => if p.1 == k then (k, v) else p) := by
        simp [hp]
      rw [hmap]
      unfold mapGet
      rw [List.find?_cons_of_pos _ (by simp)]
    · have h' : rest.any (fun p => p.1 == k) = true := by
        rw [List.any_cons] at h
        rcases Bool.or_eq_true_iff.mp h with hh | hh
        · exact absurd (by simpa using hh) hp
        · exact hh
      have hmap : (p :: rest).map (fun p => if p.1 == k then (k, v) else p)
          = p :: rest.map (fun p => if p.1 == k then (k, v) else p) := by
        simp [hp]
      rw [hmap]
      have hrec := ih h'
      unfold mapGet at hrec ⊢
      rw [List.find?_cons_of_neg _ (by simp [hp])]
      exact hrec

theorem mapGet_mapSet_self (m : List (JSStr × LogEntry)) (k : JSStr) (v : LogEntry) :
    mapGet (mapSet m k v) k = some v := by
  by_cases h : m.any (fun p => p.1 == k) = true
  · simp only [mapSet, if_pos h]
    exact mapGet_map_update m k v h
  · simp only [mapSet, if_neg h]
    apply mapGet_append_self
    intro hk
    apply h
    rw [List.any_eq_true]
    obtain ⟨p, hp, he⟩ := List.mem_map.mp hk
    exact ⟨p, hp, by simp [he]⟩

theorem mem_mapSet (m : List (JSStr × LogEntry)) (k : JSStr) (v : LogEntry)
    (q : JSStr × LogEntry) (hq : q ∈ mapSet m k v) : q ∈ m ∨ q = (k, v) := by
  simp only [mapSet] at hq
  split at hq
  · obtain ⟨p, hp, he⟩ := List.mem_map.mp hq
    by_cases h : p.1 = k
    · right; rw [← he]; simp [h]
    · left; rw [← he]; simp only [if_neg (by simp [h] : ¬ (p.1 == k) = true)]; exact hp
  · rcases List.mem_append.mp hq with h | h
    · left; exact h
    · right; simpa using h

theorem mapSet_eq_append (m : List (JSStr × LogEntry)) (k : JSStr) (v : LogEntry)
    (h : k ∉ m.map Prod.fst) : mapSet m k v = m ++ [(k, v)] := by
  have : m.any (fun p => p.1 == k) = false := by
    rw [← Bool.not_eq_true, List.any_eq_true]
    rintro ⟨p, hp, he⟩
    exact h (List.mem_map.mpr ⟨p, hp, by simpa using he⟩)
  simp [mapSet, this]

theorem mem_mapDelete (m : List (JSStr × LogEntry)) (k : JSStr)
    (q : JSStr × LogEntry) (hq : q ∈ mapDelete m k) : q ∈ m :=
  (List.mem_filter.mp hq).1

theorem mapDelete_head_eq (p : JSStr × LogEntry) (rest : List (JSStr × LogEntry))
    (hnodup : ((p :: rest).map Prod.fst).Nodup) : mapDelete (p :: rest) p.1 = rest := by
  simp only [List.map_cons, List.nodup_cons] at hnodup
  have hp : (p.1 != p.1) = false := by simp
  simp only [mapDelete, List.filter, hp]
  apply List.filter_eq_self.mpr
  intro q hq
  simp only [bne_iff_ne, ne_eq, decide_eq_true_eq]
  intro he
  exact hnodup.1 (List.mem_map.mpr ⟨q, hq, he⟩)

theorem length_mapDelete_head (p : JSStr × LogEntry) (rest : List (JSStr × LogEntry)) :
    (mapDelete (p :: rest) p.1).length ≤ rest.length := by
  have hp : (p.1 != p.1) = false := by simp
  simp only [mapDelete, List.filter, hp]
  exact List.length_filter_le _ rest

theorem storeLog_fst (c : JSStr) (r : ExecResult) (t : JSStr) (st : ServerState) :
    (storeLog c r t st).1 = logIdOf (st.logCounter + 1) := rfl

theorem storeLog_logCounter (c : JSStr) (r : ExecResult) (t : JSStr) (st : ServerState) :
    (storeLog c r t st).2.logCounter = st.logCounter + 1 := rfl

theorem fresh_key_not_mem (st : ServerState)
    (h : ∀ p ∈ st.logStore, ∃ i, i ≤ st.logCounter ∧ p.1 = logIdOf i) :
    logIdOf (st.logCounter + 1) ∉ st.logStore.map Prod.fst := by
  intro hmem
  obtain ⟨p, hp, he⟩ := List.mem_map.mp hmem
  obtain ⟨i, hi, hpi⟩ := h p hp
  rw [hpi] at he
  have := logIdOf_injective he
  omega

theorem storeLog_store_eq_of_lt (c : JSStr) (r : ExecResult) (t : JSStr)
    (st : ServerState) (h : st.logStore.length < MAX_LOGS) :
    (storeLog c r t st).2.logStore
      = mapSet st.logStore (logIdOf (st.logCounter + 1))
          ⟨logIdOf (st.logCounter + 1), c, t, r.stdout, r.stderr, r.exitCode⟩ := by
  simp only [storeLog]
  rw [if_neg (by omega)]

theorem storeLog_store_eq_of_ge (c : JSStr) (r : ExecResult) (t : JSStr)
    (st : ServerState) (p : JSStr × LogEntry) (rest : List (JSStr × LogEntry))
    (hst : st.logStore = p :: rest) (h : st.logStore.length ≥ MAX_LOGS) :
    (storeLog c r t st).2.logStore
      = mapSet (mapDelete st.logStore p.1) (logIdOf (st.logCounter + 1))
          ⟨logIdOf (st.logCounter + 1), c, t, r.stdout, r.stderr, r.exitCode⟩ := by
  simp only [storeLog]
  rw [if_pos h, hst]
  rfl

theorem mem_storeLog_store (c : JSStr) (r : ExecResult) (t : JSStr)
    (st : ServerState) (q : JSStr × LogEntry)
    (hq : q ∈ (storeLog c r t st).2.logStore) :
    q ∈ st.logStore ∨ q = (logIdOf (st.logCounter + 1),
      ⟨logIdOf (st.logCounter + 1), c, t, r.stdout, r.stderr, r.exitCode⟩) := by
  by_cases hcap : st.logStore.length ≥ MAX_LOGS
  · cases hst : st.logStore with
    | nil => rw [hst] at hcap; simp [MAX_LOGS] at hcap
    | cons p rest =>
      rw [storeLog_store_eq_of_ge c r t st p rest hst hcap] at hq
      rcases mem_mapSet _ _ _ _ hq with h | h
      · left
        have := mem_mapDelete st.logStore p.1 q h
        rwa [hst] at this
      · right; exact h
  · rw [storeLog_store_eq_of_lt c r t st (by omega)] at hq
    rcases mem_mapSet _ _ _ _ hq with h | h
    · left; exact h
    · right; exact h

theorem goodState_storeLog (c : JSStr) (r : ExecResult) (t : JSStr)
    (st : ServerState) (h : goodState st) : goodState (storeLog c r t st).2 := by
  obtain ⟨hlen, hkeys, hnodup⟩ := h
  have hfresh := fresh_key_not_mem st hkeys
  by_cases hcap : st.logStore.length ≥ MAX_LOGS
  · cases hst : st.logStore with
    | nil => rw [hst] at hcap; simp [MAX_LOGS] at hcap
    | cons p rest =>
      rw [hst] at hnodup hfresh hkeys hlen
      have hdel : mapDelete (p :: rest) p.1 = rest := mapDelete_head_eq p rest hnodup
      have hfresh2 : logIdOf (st.logCounter + 1) ∉ rest.map Prod.fst := by
        intro hm
        exact hfresh (by simp [hm])
      have hset : (storeLog c r t st).2.logStore
          = rest ++ [(logIdOf (st.logCounter + 1),
              ⟨logIdOf (st.logCounter + 1), c, t, r.stdout, r.stderr, r.exitCode⟩)] := by
        rw [storeLog_store_eq_of_ge c r t st p rest hst hcap, hst, hdel,
            mapSet_eq_append _ _ _ hfresh2]
      refine ⟨?_, ?_, ?_⟩
      · rw [hset]
        simp only [List.length_append, List.length_singleton]
        simp only [List.length_cons] at hlen
        omega
      · intro q hq
        rw [storeLog_logCounter]
        rw [hset] at hq
        rcases List.mem_append.mp hq with hm | hm
        · obtain ⟨i, hi, he⟩ := hkeys q (by simp [hm])
          exact ⟨i, by omega, he⟩
        · refine ⟨st.logCounter + 1, le_refl _, ?_⟩
          simp at hm
          rw [hm]
      · rw [hset]
        simp only [List.map_append, List.map_cons, List.map_nil]
        rw [List.nodup_append]
        refine ⟨(List.nodup_cons.mp hnodup).2, List.nodup_singleton _, ?_⟩
        intro a ha
        simp only [List.mem_singleton]
        intro hb
        rw [hb] at ha
        exact hfresh2 ha
  · have hlt : st.logStore.length < MAX_LOGS := by omega
    have hset : (storeLog c r t st).2.logStore
        = st.logStore ++ [(logIdOf (st.logCounter + 1),
            ⟨logIdOf (st.logCounter + 1), c, t, r.stdout, r.stderr, r.exitCode⟩)] := by
      rw [storeLog_store_eq_of_lt c r t st hlt, mapSet_eq_append _ _ _ hfresh]
    refine ⟨?_, ?_, ?_⟩
    · rw [hset]
      simp only [List.length_append, List.length_singleton]
      omega
    · intro q hq
      rw [storeLog_logCounter]
      rw [hset] at hq
      rcases List.mem_append.mp hq with hm | hm
      · obtain ⟨i, hi, he⟩ := hkeys q hm
        exact ⟨i, by omega, he⟩
      · refine ⟨st.logCounter + 1, le_refl _, ?_⟩
        simp at hm
        rw [hm]
    · rw [hset]
      simp only [List.map_append, List.map_cons, List.map_nil]
      rw [List.nodup_append]
      refine ⟨hnodup, List.nodup_singleton _, ?_⟩
      intro a ha
      simp only [List.mem_singleton]
      intro hb
      rw [hb] at ha
      exact hfresh ha

theorem goodState_init : goodState initState := by
  refine ⟨by simp [initState, MAX_LOGS], ?_, by simp [initState]⟩
  intro p hp
  simp [initState] at hp

theorem applyLogs_nil (st : ServerState) : applyLogs [] st = st := rfl

theorem applyLogs_cons (op : LogOp) (ops : List LogOp) (st : ServerState) :
    applyLogs (op :: ops) st = applyLogs ops (storeLog op.1 op.2.1 op.2.2 st).2 := rfl

theorem applyLogs_append (ops1 ops2 : List LogOp) (st : ServerState) :
    applyLogs (ops1 ++ ops2) st = applyLogs ops2 (applyLogs ops1 st) := by
  simp [applyLogs, List.foldl_append]

theorem goodState_applyLogs (ops : List LogOp) (st : ServerState)
    (h : goodState st) : goodState (applyLogs ops st) := by
  induction ops generalizing st with
  | nil => exact h
  | cons op rest ih =>
    rw [applyLogs_cons]
    exact ih _ (goodState_storeLog _ _ _ _ h)

theorem applyLogs_logCounter (ops : List LogOp) (st : ServerState) :
    (applyLogs ops st).logCounter = st.logCounter + ops.length := by
  induction ops generalizing st with
  | nil => simp [applyLogs_nil]
  | cons op rest ih =>
    rw [applyLogs_cons, ih, storeLog_logCounter]
    simp
    omega

theorem absent_key_persists (ops : List LogOp) (st : ServerState) (idx : Nat)
    (hg : goodState st) (hidx : idx ≤ st.logCounter)
    (habs : logIdOf idx ∉ st.logStore.map Prod.fst) :
    logIdOf idx ∉ (applyLogs ops st).logStore.map Prod.fst := by
  induction ops generalizing st with
  | nil => exact habs
  | cons op rest ih =>
    rw [applyLogs_cons]
    refine ih _ (goodState_storeLog _ _ _ _ hg) (by rw [storeLog_logCounter]; omega) ?_
    intro hmem
    obtain ⟨q, hq, he⟩ := List.mem_map.mp hmem
    rcases mem_storeLog_store _ _ _ _ _ hq with h | h
    · exact habs (List.mem_map.mpr ⟨q, h, he⟩)
    · rw [h] at he
      have : idx = st.logCounter + 1 := logIdOf_injective he.symm
      omega

theorem issuedIds_eq_range (ops : List LogOp) (st : ServerState) :
    issuedIds ops st = (List.range' (st.logCounter + 1) ops.length).map logIdOf := by
  induction ops generalizing st with
  | nil => simp [issuedIds]
  | cons op rest ih =>
    simp only [issuedIds, List.length_cons, List.range'_succ, List.map_cons]
    rw [storeLog_fst, ih, storeLog_logCounter]

theorem storeLog_at_capacity (c : JSStr) (r : ExecResult) (t : JSStr)
    (st : ServerState) (hg : goodState st)
    (hcap : st.logStore.length = MAX_LOGS) :
    (storeLog c r t st).2.logStore
      = st.logStore.tail
        ++ [(logIdOf (st.logCounter + 1),
             ⟨logIdOf (st.logCounter + 1), c, t, r.stdout, r.stderr, r.exitCode⟩)] := by
  obtain ⟨hlen, hkeys, hnodup⟩ := hg
  cases hst : st.logStore with
  | nil => rw [hst] at hcap; simp [MAX_LOGS] at hcap
  | cons p rest =>
    rw [hst] at hnodup hkeys
    have hdel : mapDelete (p :: rest) p.1 = rest := mapDelete_head_eq p rest hnodup
    have hfresh2 : logIdOf (st.logCounter + 1) ∉ rest.map Prod.fst := by
      intro hm
      obtain ⟨q, hq, he⟩ := List.mem_map.mp hm
      obtain ⟨i, hi, hqi⟩ := hkeys q (by simp [hq])
      rw [hqi] at he
      have := logIdOf_injective he
      omega
    rw [storeLog_store_eq_of_ge c r t st p rest hst (by omega), hst, hdel,
        mapSet_eq_append _ _ _ hfresh2]
    rfl

theorem lexLtB_iff_lex (a b : JSStr) :
    lexLtB a b = true ↔ List.Lex (· < ·) a b := by
  induction a generalizing b with
  | nil =>
    cases b with
    | nil =>
      simp only [lexLtB, Bool.false_eq_true, false_iff]
      exact List.Lex.not_nil_right _ _
    | cons b1 bs =>
      simp only [lexLtB, true_iff]
      exact List.Lex.nil
  | cons a1 as ih =>
    cases b with
    | nil =>
      simp only [lexLtB, Bool.false_eq_true, false_iff]
      exact List.Lex.not_nil_right _ _
    | cons b1 bs =>
      simp only [lexLtB]
      by_cases h1 : a1 < b1
      · rw [if_pos h1]
        simp only [true_iff]
        exact List.Lex.rel h1
      · rw [if_neg h1]
        by_cases h2 : a1 = b1
        · subst h2
          rw [if_pos rfl, ih bs]
          constructor
          · exact fun h => List.Lex.cons h
          · intro h
            cases h with
            | cons h => exact h
            | rel hr => exact absurd hr (lt_irrefl a1)
        · rw [if_neg h2]
          simp only [Bool.false_eq_true, false_iff]
          intro h
          cases h with
          | cons h => exact h2 rfl
          | rel hr => exact h1 hr

theorem lexLtB_false_iff (a b : JSStr) :
    lexLtB a b = false ↔ ¬ List.Lex (· < ·) a b := by
  rw [← lexLtB_iff_lex]
  simp

theorem listLogsLe_iff (a b : LogEntry) :
    listLogsLe a b = true ↔ ¬ List.Lex (· < ·) a.timestamp b.timestamp := by
  simp only [listLogsLe, Bool.not_eq_true']
  exact lexLtB_false_iff _ _

theorem lexTrichotomy (a b : JSStr) :
    List.Lex (· < ·) a b ∨ a = b ∨ List.Lex (· < ·) b a :=
  trichotomous a b

theorem lexTransH {a b c : JSStr} (h1 : List.Lex (· < ·) a b)
    (h2 : List.Lex (· < ·) b c) : List.Lex (· < ·) a c :=
  IsTrans.trans a b c h1 h2

theorem lexAsymmH {a b : JSStr} (h : List.Lex (· < ·) a b) :
    ¬ List.Lex (· < ·) b a :=
  asymm h

theorem lexIrreflH (a : JSStr) : ¬ List.Lex (· < ·) a a :=
  irrefl a

theorem listLogsLe_trans (a b c : LogEntry)
    (h1 : listLogsLe a b) (h2 : listLogsLe b c) : listLogsLe a c = true := by
  rw [listLogsLe_iff] at *
  intro hac
  rcases lexTrichotomy a.timestamp b.timestamp with h | h | h
  · exact h1 h
  · exact h2 (h ▸ hac)
  · exact h2 (lexTransH h hac)

theorem listLogsLe_total (a b : LogEntry) :
    (listLogsLe a b || listLogsLe b a) = true := by
  rw [Bool.or_eq_true_iff, listLogsLe_iff, listLogsLe_iff]
  rcases lexTrichotomy a.timestamp b.timestamp with h | h | h
  · right
    exact fun hba => lexAsymmH h hba
  · left
    rw [h]
    exact lexIrreflH _
  · left
    exact fun hab => lexAsymmH h hab

theorem includesSub_append_right (a b sub : JSStr)
    (h : includesSub b sub = true) : includesSub (a ++ b) sub = true := by
  induction a with
  | nil => exact h
  | cons c rest ih =>
    simp only [List.cons_append, includesSub]
    rw [Bool.or_eq_true_iff]
    right
    exact ih

/-- C1: for every sequence of `storeLog` insertions the log store holds at
most `MAX_LOGS` (100) entries, and an insertion arriving while the store
is at capacity removes exactly one entry — the oldest-inserted one — and
then appends the new entry. -/
theorem storeLog_capacity_and_fifo_eviction (ops : List LogOp)
    (c : JSStr) (r : ExecResult) (t : JSStr) :
    (applyLogs ops initState).logStore.length ≤ MAX_LOGS ∧
    ((applyLogs ops initState).logStore.length = MAX_LOGS →
      (storeLog c r t (applyLogs ops initState)).2.logStore
        = (applyLogs ops initState).logStore.tail
          ++ [(logIdOf ((applyLogs ops initState).logCounter + 1),
               ⟨logIdOf ((applyLogs ops initState).logCounter + 1), c, t,
                r.stdout, r.stderr, r.exitCode⟩)]) := by
  have hg := goodState_applyLogs ops initState goodState_init
  exact ⟨hg.1, fun hcap => storeLog_at_capacity c r t _ hg hcap⟩

theorem storeLog_capacity_and_fifo_eviction_witness :
    (applyLogs (List.replicate 100 dummyOp) initState).logStore.length = MAX_LOGS ∧
    (storeLog (str "flake check") ⟨[], [], 1⟩ (str "2024-01-02T00:00:00.000Z")
        (applyLogs (List.replicate 100 dummyOp) initState)).2.logStore
      = (applyLogs (List.replicate 100 dummyOp) initState).logStore.tail
        ++ [(logIdOf ((applyLogs (List.replicate 100 dummyOp) initState).logCounter + 1),
             ⟨logIdOf ((applyLogs (List.replicate 100 dummyOp) initState).logCounter + 1),
              str "flake check", str "2024-01-02T00:00:00.000Z", [], [], 1⟩)] :=
  ⟨by decide,
   (storeLog_capacity_and_fifo_eviction (List.replicate 100 dummyOp)
      (str "flake check") ⟨[], [], 1⟩ (str "2024-01-02T00:00:00.000Z")).2 (by decide)⟩

/-- C3: ids issued by `storeLog` are the strictly increasing sequence
`log-1, log-2, …` over the process lifetime (never reassigned), and once
an id is absent from the store (in particular after eviction) any later
`get_log` for it returns the not-found message — it never aliases a newer
entry. -/
theorem log_ids_increasing_evicted_not_found (ops1 ops2 : List LogOp)
    (idx : Nat) (m : Matcher) (g : Option JSStr) (hd tl : Option Nat)
    (hidx : idx ≤ (applyLogs ops1 initState).logCounter)
    (habs : logIdOf idx ∉ (applyLogs ops1 initState).logStore.map Prod.fst) :
    issuedIds (ops1 ++ ops2) initState
      = (List.range' 1 (ops1 ++ ops2).length).map logIdOf ∧
    getLog m (applyLogs (ops1 ++ ops2) initState) (logIdOf idx) g hd tl
      = str "Log not found: " ++ logIdOf idx
          ++ str "\nUse nix_list_logs to see available logs." := by
  constructor
  · rw [issuedIds_eq_range]
    rfl
  · rw [applyLogs_append]
    have habs2 := absent_key_persists ops2 _ idx
      (goodState_applyLogs _ _ goodState_init) hidx habs
    have hnone := mapGet_eq_none_of_not_mem _ _ habs2
    simp [getLog, hnone]

theorem log_ids_increasing_evicted_not_found_witness :
    (1 ≤ (applyLogs (List.replicate 101 dummyOp) initState).logCounter ∧
     logIdOf 1 ∉ (applyLogs (List.replicate 101 dummyOp) initState).logStore.map Prod.fst) ∧
    (issuedIds (List.replicate 101 dummyOp ++ []) initState
        = (List.range' 1 (List.replicate 101 dummyOp ++ ([] : List LogOp)).length).map logIdOf ∧
     getLog (fun _ _ => false) (applyLogs (List.replicate 101 dummyOp ++ []) initState)
        (logIdOf 1) none none none
        = str "Log not found: " ++ logIdOf 1
            ++ str "\nUse nix_list_logs to see available logs.") :=
  ⟨⟨by decide, by decide⟩,
   log_ids_increasing_evicted_not_found (List.replicate 101 dummyOp) [] 1
     (fun _ _ => false) none none none (by decide) (by decide)⟩

theorem formatResult_logId (c : JSStr) (r : ExecResult) (now : JSStr) (st : ServerState) :
    (formatResult c r now st).logId
      = if needsArchive r then some (storeLog c r now st).1 else none := by
  by_cases h : needsArchive r <;> simp [formatResult, h]

theorem formatResult_state (c : JSStr) (r : ExecResult) (now : JSStr) (st : ServerState) :
    (formatResult c r now st).state
      = if needsArchive r then (storeLog c r now st).2 else st := by
  by_cases h : needsArchive r <;> simp [formatResult, h]

theorem needsArchive_iff (r : ExecResult) :
    needsArchive r = true ↔
      ((r.stdout ++ r.stderr).length > MAX_OUTPUT_CHARS ∨
       (jsSplit (r.stdout ++ r.stderr)).length > MAX_OUTPUT_LINES) := by
  simp [needsArchive]

theorem storeLog_state_ne (c : JSStr) (r : ExecResult) (now : JSStr) (st : ServerState) :
    (storeLog c r now st).2 ≠ st := by
  intro h
  have := congrArg ServerState.logCounter h
  rw [storeLog_logCounter] at this
  omega

/-- C2: an execution is archived (a `LogEntry` created via `storeLog`) iff
its unfiltered combined output `stdout + stderr` has more than
`MAX_OUTPUT_CHARS` (4000) characters or more than `MAX_OUTPUT_LINES` (50)
newline-delimited lines; at exactly 4000 characters and at most 50 lines
nothing is archived and the store state is untouched, while one extra
character makes the archive happen. -/
theorem archive_trigger_exact (c : JSStr) (r : ExecResult) (now : JSStr) (st : ServerState) :
    ((formatResult c r now st).logId.isSome = true ↔
      ((r.stdout ++ r.stderr).length > MAX_OUTPUT_CHARS ∨
       (jsSplit (r.stdout ++ r.stderr)).length > MAX_OUTPUT_LINES)) ∧
    ((r.stdout ++ r.stderr).length = MAX_OUTPUT_CHARS →
      (jsSplit (r.stdout ++ r.stderr)).length ≤ MAX_OUTPUT_LINES →
      (formatResult c r now st).logId = none ∧ (formatResult c r now st).state = st) ∧
    (∀ ch : Char, (r.stdout ++ r.stderr).length = MAX_OUTPUT_CHARS →
      (formatResult c { r with stderr := r.stderr ++ [ch] } now st).logId.isSome = true ∧
      (formatResult c { r with stderr := r.stderr ++ [ch] } now st).state ≠ st) := by
  refine ⟨?_, ?_, ?_⟩
  · rw [formatResult_logId, ← needsArchive_iff]
    by_cases h : needsArchive r <;> simp [h]
  · intro hchars hlines
    have hno : needsArchive r = false := by
      rw [← Bool.not_eq_true, needsArchive_iff]
      omega
    rw [formatResult_logId, formatResult_state]
    simp [hno]
  · intro ch hchars
    have hyes : needsArchive { r with stderr := r.stderr ++ [ch] } = true := by
      rw [needsArchive_iff]
      left
      simp only [List.length_append] at hchars ⊢
      simp only [List.length_singleton]
      omega
    rw [formatResult_logId, formatResult_state]
    simp only [hyes, if_pos]
    exact ⟨rfl, storeLog_state_ne _ _ _ _⟩

theorem jsSplit_no_newline (s : JSStr) (h : ∀ x ∈ s, x ≠ nl) : jsSplit s = [s] := by
  rw [jsSplit]
  apply List.splitOnP_eq_single
  intro x hx
  simp [h x hx]

theorem replicate_a_no_newline :
    ∀ x ∈ List.replicate 4000 'a' ++ ([] : JSStr), x ≠ nl := by
  intro x hx
  rw [List.append_nil] at hx
  rw [List.eq_of_mem_replicate hx]
  decide

theorem archive_trigger_exact_witness :
    ((List.replicate 4000 'a' ++ ([] : JSStr)).length = MAX_OUTPUT_CHARS ∧
     (jsSplit (List.replicate 4000 'a' ++ ([] : JSStr))).length ≤ MAX_OUTPUT_LINES) ∧
    ((formatResult (str "build") ⟨List.replicate 4000 'a', [], 0⟩ (str "T") initState).logId = none ∧
     (formatResult (str "build") ⟨List.replicate 4000 'a', [], 0⟩ (str "T") initState).state = initState) :=
  ⟨⟨by simp only [List.length_append, List.length_replicate, List.length_nil,
        MAX_OUTPUT_CHARS],
    by
      rw [jsSplit_no_newline _ replicate_a_no_newline, List.length_singleton]
      decide⟩,
   (archive_trigger_exact (str "build") ⟨List.replicate 4000 'a', [], 0⟩ (str "T") initState).2.1
     (by simp only [List.length_append, List.length_replicate, List.length_nil,
        MAX_OUTPUT_CHARS])
     (by
       rw [jsSplit_no_newline _ replicate_a_no_newline, List.length_singleton]
       decide)⟩

/-- C4: for every archived execution, retrieving it by its id with no
grep/head/tail filters yields, after the fixed header, the full unfiltered
untruncated original output reconstructed as `stdout + "\n" + stderr` of
the stored result — independent of whatever the live display did. -/
theorem archived_roundtrip_unfiltered (c : JSStr) (r : ExecResult) (t : JSStr)
    (st : ServerState) (m : Matcher) (i : JSStr)
    (h : (formatResult c r t st).logId = some i) :
    getLog m (formatResult c r t st).state i none none none
      = getLogHeader ⟨i, c, t, r.stdout, r.stderr, r.exitCode⟩
          (r.stdout ++ nl :: r.stderr) := by
  rw [formatResult_logId] at h
  rw [formatResult_state]
  by_cases hn : needsArchive r
  · rw [if_pos hn] at h ⊢
    have hi : i = (storeLog c r t st).1 := by
      simpa using h.symm
    subst hi
    have hget : mapGet (storeLog c r t st).2.logStore (storeLog c r t st).1
        = some ⟨(storeLog c r t st).1, c, t, r.stdout, r.stderr, r.exitCode⟩ := by
      simp only [storeLog]
      exact mapGet_mapSet_self _ _ _
    simp only [getLog, hget, jsJoin_jsSplit, getLogHeader]
    simp [List.append_assoc]
  · rw [if_neg hn] at h
    simp at h

theorem archived_roundtrip_unfiltered_witness :
    (formatResult (str "build") ⟨List.replicate 51 nl, [], 0⟩ (str "T") initState).logId
      = some (logIdOf 1) ∧
    getLog (fun _ _ => false)
        (formatResult (str "build") ⟨List.replicate 51 nl, [], 0⟩ (str "T") initState).state
        (logIdOf 1) none none none
      = getLogHeader ⟨logIdOf 1, str "build", str "T", List.replicate 51 nl, [], 0⟩
          (List.replicate 51 nl ++ nl :: []) :=
  ⟨by decide,
   archived_roundtrip_unfiltered (str "build") ⟨List.replicate 51 nl, [], 0⟩ (str "T")
     initState (fun _ _ => false) (logIdOf 1) (by decide)⟩

/-- C5: in `get_log`, when both `head` and `tail` are supplied (truthy),
`head` is applied first — keep the first `head` lines — and `tail` is then
applied to the head-limited list — keep its last `tail` lines; on a
20-line body, `head=10` then `tail=5` yields lines 6–10, not 16–20. -/
theorem getLog_head_then_tail (m : Matcher) (st : ServerState) (logId : JSStr)
    (e : LogEntry) (h k : Nat) (hfind : mapGet st.logStore logId = some e)
    (hh : h ≠ 0) (hk : k ≠ 0) :
    getLog m st logId none (some h) (some k)
      = getLogHeader e
          (jsJoin (((jsSplit (e.stdout ++ [nl] ++ e.stderr)).take h).drop
            (((jsSplit (e.stdout ++ [nl] ++ e.stderr)).take h).length - k))) := by
  simp only [getLog, hfind]
  rw [if_neg (by simp [hh, hk]), if_neg (by simp [hh, hk])]

theorem getLog_head_then_tail_witness :
    mapGet (storeLog (str "run x") ⟨jsJoin (sampleLines 19), str "L20", 0⟩
        (str "T") initState).2.logStore (logIdOf 1)
      = some ⟨logIdOf 1, str "run x", str "T", jsJoin (sampleLines 19), str "L20", 0⟩ ∧
    (10 : Nat) ≠ 0 ∧ (5 : Nat) ≠ 0 ∧
    getLog (fun _ _ => false)
        (storeLog (str "run x") ⟨jsJoin (sampleLines 19), str "L20", 0⟩ (str "T") initState).2
        (logIdOf 1) none (some 10) (some 5)
      = getLogHeader ⟨logIdOf 1, str "run x", str "T", jsJoin (sampleLines 19), str "L20", 0⟩
          (jsJoin [str "L6", str "L7", str "L8", str "L9", str "L10"]) ∧
    getLog (fun _ _ => false)
        (storeLog (str "run x") ⟨jsJoin (sampleLines 19), str "L20", 0⟩ (str "T") initState).2
        (logIdOf 1) none (some 10) (some 5)
      ≠ getLogHeader ⟨logIdOf 1, str "run x", str "T", jsJoin (sampleLines 19), str "L20", 0⟩
          (jsJoin [str "L16", str "L17", str "L18", str "L19", str "L20"]) :=
  ⟨by decide, by decide, by decide,
   Eq.trans (getLog_head_then_tail (fun _ _ => false) _ (logIdOf 1)
     ⟨logIdOf 1, str "run x", str "T", jsJoin (sampleLines 19), str "L20", 0⟩ 10 5
     (by decide) (by decide) (by decide)) (by decide),
   by decide⟩

/-- C6 (amended): when the display exceeds `MAX_OUTPUT_LINES` (50) lines,
line truncation keeps exactly the first 25 and the last 25 lines with a
single marker line in between stating the number of omitted lines — so
the truncated line list has 51 entries (25 head + 1 marker + 25 tail),
not 50. -/
theorem truncateByLines_structure (lines : List JSStr)
    (h : lines.length > MAX_OUTPUT_LINES) :
    truncateByLines lines
      = lines.take 25
        ++ [str "... (" ++ natRepr (lines.length - MAX_OUTPUT_LINES) ++ str " lines omitted) ..."]
        ++ lines.drop (lines.length - 25) ∧
    (truncateByLines lines).length = 51 := by
  have h2 : MAX_OUTPUT_LINES / 2 = 25 := rfl
  constructor
  · rw [truncateByLines, if_pos h]
    simp only [h2]
  · rw [truncateByLines, if_pos h]
    simp only [h2, List.length_append, List.length_take, List.length_drop,
      List.length_singleton]
    have h50 : MAX_OUTPUT_LINES = 50 := rfl
    rw [h50] at h
    omega

theorem truncateByLines_structure_witness :
    (sampleLines 51).length > MAX_OUTPUT_LINES ∧
    (truncateByLines (sampleLines 51)
        = (sampleLines 51).take 25
          ++ [str "... (" ++ natRepr ((sampleLines 51).length - MAX_OUTPUT_LINES)
              ++ str " lines omitted) ..."]
          ++ (sampleLines 51).drop ((sampleLines 51).length - 25) ∧
     (truncateByLines (sampleLines 51)).length = 51) :=
  ⟨by decide, truncateByLines_structure (sampleLines 51) (by decide)⟩

theorem display_truncation_not_fifty_lines :
    (truncateByLines (jsSplit (jsJoin (sampleLines 60)))).length = 51 ∧
    ¬ (truncateByLines (jsSplit (jsJoin (sampleLines 60)))).length = 50 ∧
    (jsSplit (formatResult (str "build") ⟨[], jsJoin (sampleLines 60), 1⟩
        (str "T") initState).display).length = 53 ∧
    ¬ (jsSplit (formatResult (str "build") ⟨[], jsJoin (sampleLines 60), 1⟩
        (str "T") initState).display).length = 50 := by
  decide

/-- C7: for an id absent from the store, `get_log` returns (not throws) a
text response naming `nix_list_logs` as the recovery path, and the dispatch
wrapper does not mark it as an error. -/
theorem getLog_not_found_guidance (m : Matcher) (st : ServerState) (logId : JSStr)
    (g : Option JSStr) (hd tl : Option Nat)
    (h : mapGet st.logStore logId = none) :
    callToolResponse (getLogOutcome m st logId g hd tl)
      = (str "Log not found: " ++ logId
          ++ str "\nUse nix_list_logs to see available logs.", false) ∧
    includesSub (str "Log not found: " ++ logId
        ++ str "\nUse nix_list_logs to see available logs.")
      (str "nix_list_logs") = true := by
  constructor
  · simp [callToolResponse, getLogOutcome, getLog, h]
  · exact includesSub_append_right _ _ _ (by decide)

theorem getLog_not_found_guidance_witness :
    mapGet initState.logStore (str "log-9") = none ∧
    (callToolResponse (getLogOutcome (fun _ _ => false) initState (str "log-9")
        none none none)
      = (str "Log not found: " ++ str "log-9"
          ++ str "\nUse nix_list_logs to see available logs.", false) ∧
     includesSub (str "Log not found: " ++ str "log-9"
        ++ str "\nUse nix_list_logs to see available logs.")
      (str "nix_list_logs") = true) :=
  ⟨by decide,
   getLog_not_found_guidance (fun _ _ => false) initState (str "log-9")
     none none none (by decide)⟩

/-- C8: a spawn failure makes `execNix` resolve — in the normal result
shape — with exit code 1, empty stdout and the failure message in stderr;
a null exit status is likewise normalized to exit code 1. -/
theorem execNix_spawn_failure_normalized :
    (∀ message : JSStr,
      execNixResult (.spawnError message) = ⟨[], message, 1⟩) ∧
    (∀ stdout stderr : JSStr,
      execNixResult (.closed stdout stderr none) = ⟨stdout, stderr, 1⟩) :=
  ⟨fun _ => rfl, fun _ _ => rfl⟩

/-- C9: `list_logs` renders the stored entries sorted by timestamp string
descending (most recent first, lexicographic comparison), truncated to at
most 20 entries; on an empty store it returns the fixed
"No logs available." message. -/
theorem listLogs_sorted_bounded_empty (st : ServerState) :
    (listLogsEntries st).length ≤ 20 ∧
    (listLogsEntries st).Pairwise
      (fun a b => lexLtB a.timestamp b.timestamp = false) ∧
    (st.logStore = [] → listLogs st = str "No logs available.") ∧
    (st.logStore ≠ [] →
      listLogs st = jsJoin ((listLogsEntries st).map listLogLine)) := by
  refine ⟨?_, ?_, ?_, ?_⟩
  · rw [listLogsEntries, List.length_take]
    exact Nat.min_le_left _ _
  · have hs := List.sorted_mergeSort
      (fun a b c hab hbc => listLogsLe_trans a b c hab hbc)
      listLogsLe_total (st.logStore.map Prod.snd)
    have hs2 : ((st.logStore.map Prod.snd).mergeSort listLogsLe).Pairwise
        (fun a b => lexLtB a.timestamp b.timestamp = false) := by
      refine hs.imp ?_
      intro a b hab
      have := (listLogsLe_iff a b).mp hab
      rw [← lexLtB_iff_lex] at this
      simpa using this
    exact hs2.sublist (List.take_sublist _ _)
  · intro he
    rw [listLogs, listLogsEntries, he]
    simp
  · intro hne
    have hlen : (listLogsEntries st).length ≠ 0 := by
      rw [listLogsEntries, List.length_take, List.length_mergeSort, List.length_map]
      simp only [ne_eq, Nat.min_eq_zero_iff, List.length_eq_zero]
      rintro (h20 | h0)
      · omega
      · exact hne h0
    rw [listLogs]
    simp only [beq_iff_eq, hlen, if_false]

theorem listLogs_sorted_bounded_empty_witness :
    initState.logStore = [] ∧ listLogs initState = str "No logs available." :=
  ⟨rfl, (listLogs_sorted_bounded_empty initState).2.2.1 rfl⟩

/-- C10: the `get_log` filter arguments go through JS truthiness, so
`grep=""`, `head=0` and `tail=0` are each treated as absent: the handler
behaves exactly as if the argument had not been supplied, and with all
three falsy a found entry still yields its full body after the header. -/
theorem getLog_falsy_filters_ignored (m : Matcher) (st : ServerState) (logId : JSStr)
    (g : Option JSStr) (hd tl : Option Nat) :
    getLog m st logId (some []) hd tl = getLog m st logId none hd tl ∧
    getLog m st logId g (some 0) tl = getLog m st logId g none tl ∧
    getLog m st logId g hd (some 0) = getLog m st logId g hd none ∧
    (∀ e, mapGet st.logStore logId = some e →
      getLog m st logId (some []) (some 0) (some 0)
        = getLogHeader e (e.stdout ++ nl :: e.stderr)) := by
  refine ⟨?_, ?_, ?_, ?_⟩
  · cases hg : mapGet st.logStore logId <;> simp [getLog, hg]
  · cases hg : mapGet st.logStore logId <;> simp [getLog, hg]
  · cases hg : mapGet st.logStore logId <;> simp [getLog, hg]
  · intro e he
    simp only [getLog, he, beq_self_eq_true, if_true, jsJoin_jsSplit, getLogHeader]
    simp [List.append_assoc]

theorem getLog_falsy_filters_ignored_witness :
    mapGet (storeLog (str "build") ⟨str "hello", str "world", 0⟩
        (str "T") initState).2.logStore (logIdOf 1)
      = some ⟨logIdOf 1, str "build", str "T", str "hello", str "world", 0⟩ ∧
    getLog (fun _ _ => false)
        (storeLog (str "build") ⟨str "hello", str "world", 0⟩ (str "T") initState).2
        (logIdOf 1) (some []) (some 0) (some 0)
      = getLogHeader ⟨logIdOf 1, str "build", str "T", str "hello", str "world", 0⟩
          (str "hello" ++ nl :: str "world") :=
  ⟨by decide,
   (getLog_falsy_filters_ignored (fun _ _ => false)
      (storeLog (str "build") ⟨str "hello", str "world", 0⟩ (str "T") initState).2
      (logIdOf 1) (some []) (some 0) (some 0)).2.2.2
     ⟨logIdOf 1, str "build", str "T", str "hello", str "world", 0⟩ (by decide)⟩
